import Mathlib

/-!
Search matching of `src/result.js`.

A shallow embedding of the search functions of `src/src/result.js` (`getSearchTerms`,
`makeSearchTerm`, `searchFilter`, the effect of `showResult` on the selection,
`getSelectionFromURL`) and the properties proved about them.

Strings.  A JavaScript string is a sequence of UTF-16 code units; `length`, `substring`,
`includes` and `replace` all work on code units.  `JSString` is therefore a list of code
units, each given by its number.  `js` converts a string literal to its UTF-16 code
units, so that `js "Za Warudo"` is the JavaScript string `'Za Warudo'`.

Library functions.  `deburr` (lodash) and `String.prototype.toLowerCase` are not part of
the repository.  They are parameters of the embedding (`StringOps`): general theorems
hold for every choice of them, and concrete evaluations use `latin1Ops`, which gives
them on strings of Basic Latin and Latin-1 Supplement code units.

Records.  The source lists (`DEMONS`, `AREAS`, `SHARDS`, `ITEMS`, `MISC`) are imported
data files; they are a parameter (`Sources`).  The fields that `getSearchTerms` turns
into keywords (`type`, `subtype`, the locale keywords) are strings, as the keywords of a
search term are.
-/

namespace Result

/-! ## JavaScript strings -/

/-- A JavaScript string: the list of its UTF-16 code units, each given by its number. -/
abbrev JSString := List Nat

/-- UTF-16 encoding of one Unicode scalar value. -/
def utf16 (c : Char) : JSString :=
  if c.toNat < 0x10000 then [c.toNat]
  else [0xD800 + (c.toNat - 0x10000) / 0x400, 0xDC00 + (c.toNat - 0x10000) % 0x400]

/-- The JavaScript string written by a literal. -/
def js (s : String) : JSString := s.toList.flatMap utf16

/-- Code units matched by the regular expression class `\s`; the same set is stripped by
`String.prototype.trim` (ECMAScript WhiteSpace and LineTerminator). -/
def isWhiteSpace (c : Nat) : Bool :=
  c == 0x09 || c == 0x0A || c == 0x0B || c == 0x0C || c == 0x0D || c == 0x20 ||
  c == 0xA0 || c == 0x1680 || (decide (0x2000 ≤ c) && decide (c ≤ 0x200A)) ||
  c == 0x2028 || c == 0x2029 || c == 0x202F || c == 0x205F || c == 0x3000 ||
  c == 0xFEFF

/-- Code units matched by the pattern `\s|-|\.|'` of `searchFilter`:
whitespace, hyphen (U+002D), period (U+002E), apostrophe (U+0027). -/
def isSeparator (c : Nat) : Bool :=
  isWhiteSpace c || c == 0x2D || c == 0x2E || c == 0x27

/-- The method `String.prototype.trim`. -/
def trim (s : JSString) : JSString :=
  ((s.dropWhile isWhiteSpace).reverse.dropWhile isWhiteSpace).reverse

/-- The call `s.replace(re, '')` for a global (`/g`) regular expression `re` that matches exactly
the single code units satisfying `p`. -/
def removeAll (p : Nat → Bool) (s : JSString) : JSString :=
  s.filter (fun c => !p c)

/-- The call `s.replace(c, rep)` for a one-character string pattern `c`: a string pattern replaces
the first occurrence only.  (The replacement strings used by `searchFilter` contain no
`$`, so no replacement pattern is expanded.) -/
def replaceFirst (c : Nat) (rep : JSString) : JSString → JSString
  | [] => []
  | x :: s => if x = c then rep ++ s else x :: replaceFirst c rep s

/-- The two code units of `/r`. -/
def slashR : JSString := [0x2F, 0x72]

/-- The call `s.replace(/\/r$/, rep)`: replaces a trailing `/r` (the `$` anchor, without the `m`
flag, matches at the end of the input only). -/
def replaceTrailingSlashR (rep : JSString) (s : JSString) : JSString :=
  if slashR.isSuffixOf s then s.take (s.length - 2) ++ rep else s

/-- The call `s.includes(t)`: `t` occurs in `s` as a contiguous run of code units. -/
def includes : JSString → JSString → Bool
  | [], t => t.isEmpty
  | x :: s, t => t.isPrefixOf (x :: s) || includes s t

/-- The call `n.toString()` of a non-negative integer: its decimal digits. -/
def numberToString (n : Nat) : JSString := js (toString n)

/-- The library functions `searchFilter` calls that are not defined in the repository. -/
structure StringOps where
  /-- The function `deburr` of lodash. -/
  deburr : JSString → JSString
  /-- The method `String.prototype.toLowerCase`. -/
  toLowerCase : JSString → JSString

/-! ## Catalog entries -/

/-- The `type` tag of a search term. -/
inductive EntryType where
  | demon | area | shard | item | misc | easteregg
  deriving DecidableEq

/-- An object of the list returned by `getSearchTerms`.  `index` and `disambiguate` are
absent (`none`) on the easter egg, `hasActivated` is absent on every other entry. -/
structure SearchTerm where
  name : JSString
  type : EntryType
  index : Option Nat
  disambiguate : Option Bool
  keywords : List JSString
  hasActivated : Option Bool
  deriving DecidableEq

/-- JavaScript truthiness of a property that is absent or a boolean. -/
def truthy : Option Bool → Bool
  | some true => true
  | _ => false

/-- The constant `locale`. -/
def locale : JSString := js "en"

/-- The fields of a source record that `makeSearchTerm` reads: the names by locale and the
optional `disambiguate` flag. -/
structure Named where
  name : JSString → JSString
  disambiguate : Option Bool

/-- A record of `DEMONS`. -/
structure Demon extends Named where
  number : Nat

/-- A record of `AREAS`. -/
structure Area extends Named

/-- A record of `SHARDS`. -/
structure Shard extends Named where
  type : JSString

/-- A record of `ITEMS`; `keywords`, when present, maps a locale to its keyword list, when
that is present. -/
structure Item extends Named where
  type : JSString
  subtype : JSString
  keywords : Option (JSString → Option (List JSString))

/-- A record of `MISC`. -/
structure Misc extends Named where
  keywords : Option (JSString → Option (List JSString))

/-- The five imported source lists. -/
structure Sources where
  DEMONS : List Demon
  AREAS : List Area
  SHARDS : List Shard
  ITEMS : List Item
  MISC : List Misc

/-- The function `makeSearchTerm`. -/
def makeSearchTerm (item : Named) (index : Nat) (type : EntryType)
    (keywords : List JSString) : SearchTerm :=
  { name := item.name locale
    type := type
    index := some index
    disambiguate := some (item.disambiguate.getD false)
    keywords := keywords
    hasActivated := none }

/-- The expression `(item.keywords && item.keywords[locale]) ? [...item.keywords[locale]] : []`. -/
def localeKeywords (keywords : Option (JSString → Option (List JSString))) : List JSString :=
  match keywords with
  | none => []
  | some k => (k locale).getD []

/-- The loop `list.forEach((item, index) => { items.push(f(item, index)) })`, continued
from position `index`. -/
def pushEach {α : Type} (f : α → Nat → SearchTerm) :
    List α → Nat → List SearchTerm → List SearchTerm
  | [], _, items => items
  | item :: rest, index, items => pushEach f rest (index + 1) (items ++ [f item index])

/-- The easter-egg object pushed last by `getSearchTerms`. -/
def easterEgg : SearchTerm :=
  { name := js "Za Warudo"
    type := .easteregg
    index := none
    disambiguate := none
    keywords := []
    hasActivated := some false }

/-- The function `getSearchTerms`, with the imported lists as a parameter. -/
def getSearchTerms (src : Sources) : List SearchTerm :=
  let items : List SearchTerm := []
  let items := pushEach
    (fun (item : Demon) index =>
      makeSearchTerm item.toNamed index .demon [numberToString item.number])
    src.DEMONS 0 items
  let items := pushEach
    (fun (item : Area) index => makeSearchTerm item.toNamed index .area [])
    src.AREAS 0 items
  let items := pushEach
    (fun (item : Shard) index => makeSearchTerm item.toNamed index .shard [item.type])
    src.SHARDS 0 items
  let items := pushEach
    (fun (item : Item) index =>
      makeSearchTerm item.toNamed index .item
        ([item.type, item.subtype] ++ localeKeywords item.keywords))
    src.ITEMS 0 items
  let items := pushEach
    (fun (item : Misc) index =>
      makeSearchTerm item.toNamed index .misc (localeKeywords item.keywords))
    src.MISC 0 items
  items ++ [easterEgg]

/-! ## The matcher -/

/-- The name after the first normalisation step of `searchFilter`:
`deburr(s).replace(/\s|-|\.|'/g, '').toLowerCase()`. -/
def normalize (ops : StringOps) (s : JSString) : JSString :=
  ops.toLowerCase (removeAll isSeparator (ops.deburr s))

/-- The value of `compareName` at the end of `searchFilter`. -/
def compareName (ops : StringOps) (name : JSString) : JSString :=
  replaceTrailingSlashR (js "recipes")
    (replaceFirst 0x26 (js "and") (replaceFirst 0x38 (js "eight") (normalize ops name)))

/-- The value of `compareInput` at the end of `searchFilter`. -/
def compareInput (ops : StringOps) (inputValue : JSString) : JSString :=
  replaceTrailingSlashR (js "recipe")
    (replaceFirst 0x26 (js "and") (replaceFirst 0x38 (js "eight") (normalize ops inputValue)))

/-- The keyword normalisation `keyword.trim().replace(/\s/g, '').toLowerCase()`. -/
def normalizeKeyword (ops : StringOps) (keyword : JSString) : JSString :=
  ops.toLowerCase (removeAll isWhiteSpace (trim keyword))

/-- The value of `matchKeywords` in `searchFilter`. -/
def matchKeywords (ops : StringOps) (item : SearchTerm) (inputValue : JSString) : Bool :=
  (item.keywords.map (normalizeKeyword ops)).any
    (fun keyword => includes keyword (compareInput ops inputValue))

/-- The function `searchFilter`, called with both arguments. -/
def searchFilter (ops : StringOps) (item : SearchTerm) (inputValue : JSString) : Bool :=
  if (trim inputValue).isEmpty then false
  else if item.type = .easteregg then
    if truthy item.hasActivated then false
    else if 4 ≤ inputValue.length ∧
        ops.toLowerCase inputValue = (ops.toLowerCase item.name).take inputValue.length then
      true
    else
      false
  else
    includes (compareName ops item.name) (compareInput ops inputValue)
      || matchKeywords ops item inputValue

/-- A call `searchFilter(item, inputValue)` whose second argument may be omitted
(`none`): the parameter then takes its default value, the empty string. -/
def searchFilterCall (ops : StringOps) (item : SearchTerm) (inputValue : Option JSString) :
    Bool :=
  searchFilter ops item (inputValue.getD [])

/-! ## Selection and session state -/

/-- The effect of `showResult(selection, callback)` on the object `selection`: the
`'easteregg'` case assigns `selection.hasActivated = true`; no other case assigns to
`selection`.  The drawing calls, the sound and the callback are external collaborators
that receive other values and are left out. -/
def showResult (selection : SearchTerm) : SearchTerm :=
  match selection.type with
  | .easteregg => { selection with hasActivated := some true }
  | _ => selection

/-- The entry objects allocated so far in a session; an object is referred to by its
position. -/
abbrev Heap := List SearchTerm

/-- Assignment to the object at `ref`: the object becomes `f` of itself, every other
object is untouched. -/
def updateAt (f : SearchTerm → SearchTerm) : Heap → Nat → Heap
  | [], _ => []
  | e :: h, 0 => f e :: h
  | e :: h, ref + 1 => e :: updateAt f h ref

/-- A call of `getSearchTerms` in a session: every entry of the returned array is a newly
allocated object; returns the new heap and the references held by the array. -/
def callGetSearchTerms (src : Sources) (h : Heap) : Heap × List Nat :=
  (h ++ getSearchTerms src, List.range' h.length (getSearchTerms src).length)

/-- A call of `showResult` in a session on the object referred to by `ref`. -/
def callShowResult (h : Heap) (ref : Nat) : Heap :=
  updateAt showResult h ref

/-- The function `getSelectionFromURL` in a session, with the value of the URL parameter
`q` as a parameter (`none` when it is missing); returns the new heap and the reference of
the selection (`none` for `undefined`). -/
def getSelectionFromURL (ops : StringOps) (src : Sources) (term : Option JSString)
    (h : Heap) : Heap × Option Nat :=
  match term with
  | none => (h, none)
  | some term =>
    if term.isEmpty then (h, none)
    else
      let items := callGetSearchTerms src h
      (items.1, (items.2.filter (fun ref =>
        match items.1[ref]? with
        | some item => searchFilter ops item term
        | none => false)).head?)

/-- The calls that change the session state. -/
inductive Call where
  | getSearchTerms (src : Sources)
  | showResult (ref : Nat)
  | getSelectionFromURL (ops : StringOps) (src : Sources) (term : Option JSString)

/-- The heap after one call. -/
def step (h : Heap) : Call → Heap
  | .getSearchTerms src => (callGetSearchTerms src h).1
  | .showResult ref => callShowResult h ref
  | .getSelectionFromURL ops src term => (getSelectionFromURL ops src term h).1

/-- The heap after a sequence of calls. -/
def run (h : Heap) (calls : List Call) : Heap :=
  calls.foldl step h

/-! ## An instance of the library functions for Latin-1 strings -/

/-- The entry of lodash's `deburredLetters` table for a letter of the Latin-1 Supplement
block, that is, for a code unit that satisfies `isLatin1Letter` (the conditions are read
in order and under that guard: U+00C0–U+00C5 give `A`, U+00D2–U+00D6 and U+00D8 give
`O`, U+00FD and U+00FF give `y`, and so on). -/
def deburredLetters (c : Nat) : JSString :=
  if c ≤ 0xC5 then js "A"
  else if c = 0xC6 then js "Ae"
  else if c = 0xC7 then js "C"
  else if c ≤ 0xCB then js "E"
  else if c ≤ 0xCF then js "I"
  else if c = 0xD0 then js "D"
  else if c = 0xD1 then js "N"
  else if c ≤ 0xD8 then js "O"
  else if c ≤ 0xDC then js "U"
  else if c = 0xDD then js "Y"
  else if c = 0xDE then js "Th"
  else if c = 0xDF then js "ss"
  else if c ≤ 0xE5 then js "a"
  else if c = 0xE6 then js "ae"
  else if c = 0xE7 then js "c"
  else if c ≤ 0xEB then js "e"
  else if c ≤ 0xEF then js "i"
  else if c = 0xF0 then js "d"
  else if c = 0xF1 then js "n"
  else if c ≤ 0xF8 then js "o"
  else if c ≤ 0xFC then js "u"
  else if c = 0xFE then js "th"
  else js "y"

/-- The letters of the Latin-1 Supplement block (U+00C0–U+00FF without the signs U+00D7
and U+00F7). -/
def isLatin1Letter (c : Nat) : Bool :=
  (decide (0xC0 ≤ c) && decide (c ≤ 0xD6)) || (decide (0xD8 ≤ c) && decide (c ≤ 0xF6)) ||
  (decide (0xF8 ≤ c) && decide (c ≤ 0xFF))

/-- The replacement of one code unit by lodash's `deburr`, for code units below U+0100:
a letter of the Latin-1 Supplement block is looked up in the table, any other code unit
is kept. -/
def deburrLetter (c : Nat) : JSString :=
  if isLatin1Letter c then deburredLetters c else [c]

/-- Code units of the combining-mark ranges that lodash's `deburr` removes
(U+0300–U+036F, U+FE20–U+FE2F, U+20D0–U+20FF). -/
def isComboMark (c : Nat) : Bool :=
  (decide (0x300 ≤ c) && decide (c ≤ 0x36F)) || (decide (0xFE20 ≤ c) && decide (c ≤ 0xFE2F)) ||
  (decide (0x20D0 ≤ c) && decide (c ≤ 0x20FF))

/-- Code units that lodash's `deburr` rewrites or removes: the letters of the Latin-1
Supplement and Latin Extended-A blocks and the combining marks. -/
def isDeburrTarget (c : Nat) : Bool :=
  isLatin1Letter c || (decide (0x100 ≤ c) && decide (c ≤ 0x17F)) || isComboMark c

/-- Lower-casing of one code unit of the Basic Latin and Latin-1 Supplement blocks. -/
def lowerLatin1 (c : Nat) : Nat :=
  if (0x41 ≤ c ∧ c ≤ 0x5A) ∨ (0xC0 ≤ c ∧ c ≤ 0xDE ∧ c ≠ 0xD7) then c + 0x20 else c

/-- The library functions on strings whose code units are all below U+0100 (Basic Latin
and Latin-1 Supplement), where `deburr` and `toLowerCase` act code unit by code unit as
given here. -/
def latin1Ops : StringOps :=
  { deburr := fun s => removeAll isComboMark (s.flatMap deburrLetter)
    toLowerCase := fun s => s.map lowerLatin1 }

/-- An entry with the given name, type and keywords, as `makeSearchTerm` builds it. -/
def entry (name : String) (type : EntryType) (keywords : List String) : SearchTerm :=
  { name := js name
    type := type
    index := some 0
    disambiguate := some false
    keywords := keywords.map js
    hasActivated := none }

/-! ## Notions used in the statements -/

/-- A query that is empty or consists of whitespace only. -/
def blank (q : JSString) : Bool := q.all isWhiteSpace

/-- The string `t` is a substring of `s`: `t` occurs in `s` as a contiguous run. -/
def IsSubstring (t s : JSString) : Prop := ∃ a b, s = a ++ t ++ b

/-- The string `s` with each digit `8` written as `eight` and each `&` written as `and`. -/
def spellOut (s : JSString) : JSString :=
  s.flatMap (fun c => if c = 0x38 then js "eight" else if c = 0x26 then js "and" else [c])

/-- The documented behaviour of the library functions that the proof about
punctuation-only queries relies on: `deburr` changes only letters of the Latin-1
Supplement and Latin Extended-A blocks and combining marks, and lower-casing the empty
string gives the empty string. -/
structure LibraryLaws (ops : StringOps) : Prop where
  deburr_plain : ∀ s : JSString, (∀ c ∈ s, isDeburrTarget c = false) → ops.deburr s = s
  toLowerCase_empty : ops.toLowerCase [] = []

/-- The entries `f item index` for the elements of a list, in the list's order, the
first element having position `index`. -/
def mapIdxFrom {α : Type} (f : α → Nat → SearchTerm) : List α → Nat → List SearchTerm
  | [], _ => []
  | item :: rest, index => f item index :: mapIdxFrom f rest (index + 1)

/-- The display name of the record that `showResult` looks up for a selection of the
given type and index: `DEMONS[index]`, `AREAS[index]`, `SHARDS[index]`, `ITEMS[index]` or
`MISC[index]`, and of it `name[locale]`; `none` when there is no such record. -/
def sourceRecordName (src : Sources) (type : EntryType) (index : Nat) : Option JSString :=
  match type with
  | .demon => (src.DEMONS[index]?).map (fun r => r.name locale)
  | .area => (src.AREAS[index]?).map (fun r => r.name locale)
  | .shard => (src.SHARDS[index]?).map (fun r => r.name locale)
  | .item => (src.ITEMS[index]?).map (fun r => r.name locale)
  | .misc => (src.MISC[index]?).map (fun r => r.name locale)
  | .easteregg => none

/-- Source lists with one record each; the demon has number 8. -/
def sampleSources : Sources :=
  { DEMONS := [{ name := fun _ => js "Seama", disambiguate := none, number := 8 }]
    AREAS := [{ name := fun _ => js "Galleon Minerva", disambiguate := none }]
    SHARDS := [{ name := fun _ => js "Flame Orb", disambiguate := none, type := js "conjure" }]
    ITEMS := [{ name := fun _ => js "Fish & Chips", disambiguate := some true,
                type := js "food", subtype := js "dish",
                keywords := some (fun _ => some [js "meal"]) }]
    MISC := [{ name := fun _ => js "Curry/R", disambiguate := none, keywords := none }] }

/-- The session in which the catalog of `sampleSources` has been derived in an empty
heap (objects 0 to 5, the easter egg being object 5) and the easter egg then selected. -/
def sessionActivated : Heap :=
  callShowResult (callGetSearchTerms sampleSources []).1 5

/-! ## Auxiliary lemmas -/

theorem trim_isEmpty (q : JSString) : (trim q).isEmpty = blank q := by
  unfold trim blank
  rw [Bool.eq_iff_iff]
  simp only [List.isEmpty_iff, List.reverse_eq_nil_iff, List.dropWhile_eq_nil_iff,
    List.mem_reverse, List.all_eq_true]
  constructor
  · intro h c hc
    by_contra hn
    have hne : q.dropWhile isWhiteSpace ≠ [] := by
      intro h0
      exact hn (List.dropWhile_eq_nil_iff.mp h0 c hc)
    have hhead := List.head_dropWhile_not isWhiteSpace q hne
    have := h _ (List.head_mem hne)
    simp [this] at hhead
  · intro h c hc
    exact h c ((List.dropWhile_sublist _).subset hc)

theorem includes_iff (s t : JSString) : includes s t = true ↔ IsSubstring t s := by
  induction s with
  | nil =>
    simp only [includes, List.isEmpty_iff, IsSubstring]
    constructor
    · rintro rfl; exact ⟨[], [], rfl⟩
    · rintro ⟨a, b, h⟩
      have := congrArg List.length h
      simp at this
      exact List.length_eq_zero.mp (by omega)
  | cons x s ih =>
    simp only [includes, Bool.or_eq_true, List.isPrefixOf_iff_prefix, ih, IsSubstring]
    constructor
    · rintro (⟨b, hb⟩ | ⟨a, b, h⟩)
      · exact ⟨[], b, by simp [hb]⟩
      · exact ⟨x :: a, b, by simp [h]⟩
    · rintro ⟨a, b, h⟩
      cases a with
      | nil => left; exact ⟨b, by simpa using h.symm⟩
      | cons y a =>
        right
        simp only [List.cons_append, List.cons.injEq] at h
        exact ⟨a, b, h.2⟩
theorem replaceFirst_of_not_mem (c : Nat) (rep s : JSString) (h : c ∉ s) :
    replaceFirst c rep s = s := by
  induction s with
  | nil => rfl
  | cons x s ih =>
    simp only [List.mem_cons, not_or] at h
    simp [replaceFirst, Ne.symm h.1, ih h.2]

theorem replaceFirst_append_of_mem (c : Nat) (rep a b : JSString) (h : c ∈ a) :
    replaceFirst c rep (a ++ b) = replaceFirst c rep a ++ b := by
  induction a with
  | nil => simp at h
  | cons x a ih =>
    by_cases hx : x = c
    · simp [replaceFirst, hx]
    · have hc : c ∈ a := by
        rcases List.mem_cons.mp h with h | h
        · exact absurd h.symm hx
        · exact h
      simp [replaceFirst, hx, ih hc]

theorem replaceFirst_append_of_not_mem (c : Nat) (rep a b : JSString) (h : c ∉ a) :
    replaceFirst c rep (a ++ b) = a ++ replaceFirst c rep b := by
  induction a with
  | nil => rfl
  | cons x a ih =>
    simp only [List.mem_cons, not_or] at h
    simp [replaceFirst, Ne.symm h.1, ih h.2]

theorem isSubstring_replaceFirst {t s : JSString} (c : Nat) (rep : JSString)
    (h : IsSubstring t s) (hc : c ∉ t) : IsSubstring t (replaceFirst c rep s) := by
  obtain ⟨a, b, rfl⟩ := h
  by_cases ha : c ∈ a
  · rw [List.append_assoc, replaceFirst_append_of_mem c rep a (t ++ b) ha]
    exact ⟨replaceFirst c rep a, b, by simp⟩
  · rw [List.append_assoc, replaceFirst_append_of_not_mem c rep a (t ++ b) ha,
      replaceFirst_append_of_not_mem c rep t b hc]
    exact ⟨a, replaceFirst c rep b, by simp⟩

theorem isSubstring_split {t l₁ l₂ : JSString} {x : Nat}
    (h : IsSubstring t (l₁ ++ x :: l₂)) (hx : x ∉ t) : IsSubstring t l₁ ∨ IsSubstring t l₂ := by
  obtain ⟨a, b, h⟩ := h
  rcases List.append_eq_append_iff.mp h with ⟨a', h1, h2⟩ | ⟨c', h1, _⟩
  · cases a' with
    | nil => exact Or.inl ⟨a, [], by simpa using h1.symm⟩
    | cons y a' =>
      simp only [List.cons_append, List.cons.injEq] at h2
      obtain ⟨rfl, h2⟩ := h2
      rcases List.append_eq_append_iff.mp h1 with ⟨u, _, h4⟩ | ⟨u, _, h4⟩
      · exact absurd (by simp [h4]) hx
      · cases u with
        | nil =>
          have ht : t = x :: a' := by simpa using h4.symm
          exact absurd (by rw [ht]; exact List.mem_cons_self _ _) hx
        | cons z u =>
          simp only [List.cons_append, List.cons.injEq] at h4
          exact Or.inr ⟨u, b, by rw [h2, h4.2]⟩
  · exact Or.inl ⟨a, c', h1⟩

theorem isSuffixOf_slashR (s : JSString) : slashR.isSuffixOf s = true ↔ ∃ stem, s = stem ++ slashR := by
  rw [List.isSuffixOf_iff_suffix]
  constructor
  · rintro ⟨t, h⟩; exact ⟨t, h.symm⟩
  · rintro ⟨t, h⟩; exact ⟨t, h.symm⟩

theorem replaceTrailingSlashR_append (rep stem : JSString) :
    replaceTrailingSlashR rep (stem ++ slashR) = stem ++ rep := by
  have h : slashR.isSuffixOf (stem ++ slashR) = true := (isSuffixOf_slashR _).mpr ⟨stem, rfl⟩
  simp [replaceTrailingSlashR, h, slashR]

theorem replaceTrailingSlashR_of_not_suffix (rep s : JSString) (h : ¬ ∃ stem, s = stem ++ slashR) :
    replaceTrailingSlashR rep s = s := by
  have h' : slashR.isSuffixOf s = false := by
    rw [← Bool.not_eq_true, isSuffixOf_slashR]; exact h
  simp [replaceTrailingSlashR, h']
theorem includes_nil (s : JSString) : includes s [] = true :=
  (includes_iff s []).mpr ⟨[], s, rfl⟩

theorem isSubstring_refl (s : JSString) : IsSubstring s s := ⟨[], [], by simp⟩

theorem isSubstring_append_left {t s : JSString} (a : JSString) (h : IsSubstring t s) :
    IsSubstring t (a ++ s) := by
  obtain ⟨u, v, rfl⟩ := h
  exact ⟨a ++ u, v, by simp⟩

theorem isSubstring_append_right {t s : JSString} (b : JSString) (h : IsSubstring t s) :
    IsSubstring t (s ++ b) := by
  obtain ⟨u, v, rfl⟩ := h
  exact ⟨u, v ++ b, by simp⟩

theorem replaceFirst_append_slashR (c : Nat) (rep stem : JSString)
    (h : c ∉ slashR) :
    replaceFirst c rep (stem ++ slashR) = replaceFirst c rep stem ++ slashR := by
  by_cases hs : c ∈ stem
  · exact replaceFirst_append_of_mem c rep stem slashR hs
  · rw [replaceFirst_append_of_not_mem c rep stem slashR hs, replaceFirst_of_not_mem c rep slashR h,
      replaceFirst_of_not_mem c rep stem hs]

theorem replaceTrailingSlashR_of_no_slash (rep s : JSString) (h : 0x2F ∉ s) :
    replaceTrailingSlashR rep s = s := by
  apply replaceTrailingSlashR_of_not_suffix
  rintro ⟨stem, rfl⟩
  exact h (by simp [slashR])

theorem isSubstring_replaceTrailing_recipes {t s : JSString} (h : IsSubstring t s)
    (hs : 0x2F ∉ t) : IsSubstring t (replaceTrailingSlashR (js "recipes") s) := by
  by_cases hsuf : ∃ stem, s = stem ++ slashR
  · obtain ⟨stem, rfl⟩ := hsuf
    rw [replaceTrailingSlashR_append]
    have h' : IsSubstring t (stem ++ 0x2F :: [0x72]) := h
    rcases isSubstring_split h' hs with h1 | h1
    · exact isSubstring_append_right _ h1
    · apply isSubstring_append_left
      obtain ⟨a, b, hab⟩ := h1
      have hrec : js "recipes" = 0x72 :: js "ecipes" := by decide
      cases a with
      | nil =>
        cases t with
        | nil => exact ⟨[], js "recipes", by simp⟩
        | cons x t =>
          simp only [List.nil_append, List.cons_append, List.cons.injEq] at hab
          obtain ⟨rfl, hab⟩ := hab
          have ht : t = [] := by
            have := congrArg List.length hab
            simp at this
            exact List.length_eq_zero.mp (by omega)
          subst ht
          exact ⟨[], js "ecipes", by rw [hrec]; simp⟩
      | cons y a =>
        simp only [List.cons_append, List.cons.injEq] at hab
        have ht : t = [] := by
          have := congrArg List.length hab.2
          simp at this
          exact List.length_eq_zero.mp (by omega)
        subst ht
        exact ⟨[], js "recipes", by simp⟩
  · rw [replaceTrailingSlashR_of_not_suffix _ _ hsuf]
    exact h

theorem compareInput_of_plain (ops : StringOps) (q : JSString)
    (h8 : 0x38 ∉ normalize ops q) (hamp : 0x26 ∉ normalize ops q)
    (hslash : 0x2F ∉ normalize ops q) : compareInput ops q = normalize ops q := by
  unfold compareInput
  rw [replaceFirst_of_not_mem _ _ _ h8, replaceFirst_of_not_mem _ _ _ hamp,
    replaceTrailingSlashR_of_no_slash _ _ hslash]

theorem compareInput_of_no_symbol (ops : StringOps) (q : JSString)
    (h8 : 0x38 ∉ normalize ops q) (hamp : 0x26 ∉ normalize ops q) :
    compareInput ops q = replaceTrailingSlashR (js "recipe") (normalize ops q) := by
  unfold compareInput
  rw [replaceFirst_of_not_mem _ _ _ h8, replaceFirst_of_not_mem _ _ _ hamp]

theorem searchFilter_standard (ops : StringOps) (item : SearchTerm) (q : JSString)
    (ht : item.type ≠ .easteregg) (hq : blank q = false) :
    searchFilter ops item q =
      (includes (compareName ops item.name) (compareInput ops q) || matchKeywords ops item q) := by
  unfold searchFilter
  rw [trim_isEmpty, hq]
  simp [ht]

theorem matchKeywords_iff (ops : StringOps) (item : SearchTerm) (q : JSString) :
    matchKeywords ops item q = true ↔
      ∃ k ∈ item.keywords, IsSubstring (compareInput ops q) (normalizeKeyword ops k) := by
  simp [matchKeywords, includes_iff]

theorem isSeparator_not_deburrTarget (c : Nat) (h : isSeparator c = true) :
    isDeburrTarget c = false := by
  simp only [isSeparator, isWhiteSpace, Bool.or_eq_true, beq_iff_eq, Bool.and_eq_true,
    decide_eq_true_eq] at h
  simp only [isDeburrTarget, isLatin1Letter, isComboMark, Bool.or_eq_false_iff,
    Bool.and_eq_false_iff, decide_eq_false_iff_not]
  omega

theorem removeAll_eq_nil (p : Nat → Bool) (s : JSString) (h : s.all p = true) :
    removeAll p s = [] := by
  simp only [List.all_eq_true] at h
  simp only [removeAll, List.filter_eq_nil_iff]
  intro c hc
  simp [h c hc]

theorem deburrLetter_of_not_target (x : Nat) (hx : isDeburrTarget x = false) :
    deburrLetter x = [x] := by
  simp only [isDeburrTarget, Bool.or_eq_false_iff] at hx
  simp [deburrLetter, hx.1.1]

theorem isComboMark_of_not_target (x : Nat) (hx : isDeburrTarget x = false) :
    isComboMark x = false := by
  simp only [isDeburrTarget, Bool.or_eq_false_iff] at hx
  exact hx.2

theorem latin1Ops_laws : LibraryLaws latin1Ops := by
  constructor
  · intro s hs
    show removeAll isComboMark (s.flatMap deburrLetter) = s
    induction s with
    | nil => rfl
    | cons x s ih =>
      have hx := hs x (List.mem_cons_self _ _)
      have ih' := ih (fun c hc => hs c (List.mem_cons_of_mem _ hc))
      have h1 := deburrLetter_of_not_target x hx
      have h2 := isComboMark_of_not_target x hx
      simp only [List.flatMap_cons, h1, List.singleton_append]
      simp only [removeAll, List.filter_cons, h2, Bool.not_false, if_true] at ih' ⊢
      rw [ih']
  · rfl

/-! ## Catalog flattening -/

theorem pushEach_eq {α : Type} (f : α → Nat → SearchTerm) (l : List α) (index : Nat)
    (items : List SearchTerm) : pushEach f l index items = items ++ mapIdxFrom f l index := by
  induction l generalizing index items with
  | nil => simp [pushEach, mapIdxFrom]
  | cons x l ih => simp [pushEach, mapIdxFrom, ih]

theorem length_mapIdxFrom {α : Type} (f : α → Nat → SearchTerm) (l : List α) (index : Nat) :
    (mapIdxFrom f l index).length = l.length := by
  induction l generalizing index with
  | nil => rfl
  | cons x l ih => simp [mapIdxFrom, ih]

theorem getElem?_mapIdxFrom {α : Type} (f : α → Nat → SearchTerm) (l : List α)
    (index k : Nat) (x : α) (h : l[k]? = some x) :
    (mapIdxFrom f l index)[k]? = some (f x (index + k)) := by
  induction l generalizing index k with
  | nil => simp at h
  | cons y l ih =>
    cases k with
    | zero =>
      simp only [List.getElem?_cons_zero, Option.some.injEq] at h
      simp [mapIdxFrom, h]
    | succ k =>
      simp only [List.getElem?_cons_succ] at h
      simp only [mapIdxFrom, List.getElem?_cons_succ]
      rw [ih (index + 1) k h]
      congr 2
      omega

theorem mem_mapIdxFrom {α : Type} (f : α → Nat → SearchTerm) (l : List α) (index : Nat)
    (e : SearchTerm) (h : e ∈ mapIdxFrom f l index) :
    ∃ k x, l[k]? = some x ∧ e = f x (index + k) := by
  induction l generalizing index with
  | nil => simp [mapIdxFrom] at h
  | cons y l ih =>
    simp only [mapIdxFrom, List.mem_cons] at h
    rcases h with h | h
    · exact ⟨0, y, by simp, by simpa using h⟩
    · obtain ⟨k, x, hk, he⟩ := ih (index + 1) h
      exact ⟨k + 1, x, by simpa using hk, by rw [he]; congr 1; omega⟩

theorem getElem?_append_some {a : List SearchTerm} (b : List SearchTerm) {k : Nat}
    {e : SearchTerm} (h : a[k]? = some e) : (a ++ b)[k]? = some e := by
  have hk : k < a.length := by
    by_contra hn
    rw [List.getElem?_eq_none (by omega)] at h
    exact Option.noConfusion h
  rw [List.getElem?_append_left hk, h]

theorem getElem?_append_add (a b : List SearchTerm) (n k : Nat) (h : a.length = n) :
    (a ++ b)[n + k]? = b[k]? := by
  subst h
  rw [List.getElem?_append_right (by omega)]
  congr 1
  omega

theorem getSearchTerms_eq (src : Sources) :
    getSearchTerms src =
      mapIdxFrom (fun (item : Demon) index =>
          makeSearchTerm item.toNamed index .demon [numberToString item.number]) src.DEMONS 0 ++
        mapIdxFrom (fun (item : Area) index => makeSearchTerm item.toNamed index .area [])
          src.AREAS 0 ++
        mapIdxFrom (fun (item : Shard) index =>
          makeSearchTerm item.toNamed index .shard [item.type]) src.SHARDS 0 ++
        mapIdxFrom (fun (item : Item) index =>
          makeSearchTerm item.toNamed index .item
            ([item.type, item.subtype] ++ localeKeywords item.keywords)) src.ITEMS 0 ++
        mapIdxFrom (fun (item : Misc) index =>
          makeSearchTerm item.toNamed index .misc (localeKeywords item.keywords)) src.MISC 0 ++
        [easterEgg] := by
  simp only [getSearchTerms, pushEach_eq, List.nil_append]

/-- C8: `getSearchTerms` returns one entry per record of the five source lists and one
easter-egg entry: the demons first, then the areas, the shards, the items and the misc
records, each list in its own order, the entry of the record at position `k` of its list
carrying `index = k`; the easter egg (`Za Warudo`, `hasActivated` false, no keywords) is
the last entry and the only one of its type; and for every other entry, the record at
`index` of the source list selected by the entry's `type` has the entry's name. -/
theorem getSearchTerms_layout (src : Sources) :
    (getSearchTerms src).length =
      src.DEMONS.length + src.AREAS.length + src.SHARDS.length + src.ITEMS.length +
        src.MISC.length + 1 ∧
    (∀ k d, src.DEMONS[k]? = some d →
      (getSearchTerms src)[k]? =
        some (makeSearchTerm d.toNamed k .demon [numberToString d.number])) ∧
    (∀ k a, src.AREAS[k]? = some a →
      (getSearchTerms src)[src.DEMONS.length + k]? =
        some (makeSearchTerm a.toNamed k .area [])) ∧
    (∀ k s, src.SHARDS[k]? = some s →
      (getSearchTerms src)[src.DEMONS.length + src.AREAS.length + k]? =
        some (makeSearchTerm s.toNamed k .shard [s.type])) ∧
    (∀ k i, src.ITEMS[k]? = some i →
      (getSearchTerms src)[src.DEMONS.length + src.AREAS.length + src.SHARDS.length + k]? =
        some (makeSearchTerm i.toNamed k .item
          ([i.type, i.subtype] ++ localeKeywords i.keywords))) ∧
    (∀ k m, src.MISC[k]? = some m →
      (getSearchTerms src)[src.DEMONS.length + src.AREAS.length + src.SHARDS.length +
          src.ITEMS.length + k]? =
        some (makeSearchTerm m.toNamed k .misc (localeKeywords m.keywords))) ∧
    (getSearchTerms src)[src.DEMONS.length + src.AREAS.length + src.SHARDS.length +
        src.ITEMS.length + src.MISC.length]? =
      some { name := js "Za Warudo", type := .easteregg, index := none, disambiguate := none,
             keywords := [], hasActivated := some false } ∧
    (∀ k e, (getSearchTerms src)[k]? = some e → e.type = .easteregg →
      k = src.DEMONS.length + src.AREAS.length + src.SHARDS.length + src.ITEMS.length +
        src.MISC.length) ∧
    (∀ e ∈ getSearchTerms src, e.type ≠ .easteregg →
      ∃ i, e.index = some i ∧ sourceRecordName src e.type i = some e.name) := by
  rw [getSearchTerms_eq]
  generalize hfD : (fun (item : Demon) index =>
    makeSearchTerm item.toNamed index .demon [numberToString item.number]) = fD
  generalize hfA : (fun (item : Area) index => makeSearchTerm item.toNamed index .area []) = fA
  generalize hfS : (fun (item : Shard) index =>
    makeSearchTerm item.toNamed index .shard [item.type]) = fS
  generalize hfI : (fun (item : Item) index => makeSearchTerm item.toNamed index .item
    ([item.type, item.subtype] ++ localeKeywords item.keywords)) = fI
  generalize hfM : (fun (item : Misc) index =>
    makeSearchTerm item.toNamed index .misc (localeKeywords item.keywords)) = fM
  have lD := length_mapIdxFrom fD src.DEMONS 0
  have lA := length_mapIdxFrom fA src.AREAS 0
  have lS := length_mapIdxFrom fS src.SHARDS 0
  have lI := length_mapIdxFrom fI src.ITEMS 0
  have lM := length_mapIdxFrom fM src.MISC 0
  have hbody : ∀ e ∈ mapIdxFrom fD src.DEMONS 0 ++ mapIdxFrom fA src.AREAS 0 ++
      mapIdxFrom fS src.SHARDS 0 ++ mapIdxFrom fI src.ITEMS 0 ++ mapIdxFrom fM src.MISC 0,
      e.type ≠ .easteregg ∧
        ∃ i, e.index = some i ∧ sourceRecordName src e.type i = some e.name := by
    intro e he
    simp only [List.mem_append] at he
    rcases he with (((he | he) | he) | he) | he
    · obtain ⟨k, x, hk, rfl⟩ := mem_mapIdxFrom _ _ _ _ he
      subst hfD
      exact ⟨by simp [makeSearchTerm], 0 + k, rfl, by simp [sourceRecordName, makeSearchTerm, hk]⟩
    · obtain ⟨k, x, hk, rfl⟩ := mem_mapIdxFrom _ _ _ _ he
      subst hfA
      exact ⟨by simp [makeSearchTerm], 0 + k, rfl, by simp [sourceRecordName, makeSearchTerm, hk]⟩
    · obtain ⟨k, x, hk, rfl⟩ := mem_mapIdxFrom _ _ _ _ he
      subst hfS
      exact ⟨by simp [makeSearchTerm], 0 + k, rfl, by simp [sourceRecordName, makeSearchTerm, hk]⟩
    · obtain ⟨k, x, hk, rfl⟩ := mem_mapIdxFrom _ _ _ _ he
      subst hfI
      exact ⟨by simp [makeSearchTerm], 0 + k, rfl, by simp [sourceRecordName, makeSearchTerm, hk]⟩
    · obtain ⟨k, x, hk, rfl⟩ := mem_mapIdxFrom _ _ _ _ he
      subst hfM
      exact ⟨by simp [makeSearchTerm], 0 + k, rfl, by simp [sourceRecordName, makeSearchTerm, hk]⟩
  have hlen : (mapIdxFrom fD src.DEMONS 0 ++ mapIdxFrom fA src.AREAS 0 ++
      mapIdxFrom fS src.SHARDS 0 ++ mapIdxFrom fI src.ITEMS 0 ++
      mapIdxFrom fM src.MISC 0).length =
      src.DEMONS.length + src.AREAS.length + src.SHARDS.length + src.ITEMS.length +
        src.MISC.length := by
    simp only [List.length_append, lD, lA, lS, lI, lM]
  refine ⟨?_, ?_, ?_, ?_, ?_, ?_, ?_, ?_, ?_⟩
  · rw [List.length_append, hlen]; rfl
  · intro k d hk
    have h := getElem?_mapIdxFrom fD src.DEMONS 0 k d hk
    rw [Nat.zero_add] at h
    subst hfD
    exact getElem?_append_some _ (getElem?_append_some _ (getElem?_append_some _
      (getElem?_append_some _ (getElem?_append_some _ h))))
  · intro k a hk
    have h := getElem?_mapIdxFrom fA src.AREAS 0 k a hk
    rw [Nat.zero_add] at h
    subst hfA
    refine getElem?_append_some _ (getElem?_append_some _ (getElem?_append_some _
      (getElem?_append_some _ ?_)))
    rw [getElem?_append_add _ _ _ _ lD]
    exact h
  · intro k s hk
    have h := getElem?_mapIdxFrom fS src.SHARDS 0 k s hk
    rw [Nat.zero_add] at h
    subst hfS
    refine getElem?_append_some _ (getElem?_append_some _ (getElem?_append_some _ ?_))
    rw [getElem?_append_add _ _ _ _ (by rw [List.length_append, lD, lA])]
    exact h
  · intro k i hk
    have h := getElem?_mapIdxFrom fI src.ITEMS 0 k i hk
    rw [Nat.zero_add] at h
    subst hfI
    refine getElem?_append_some _ (getElem?_append_some _ ?_)
    rw [getElem?_append_add _ _ _ _ (by simp only [List.length_append, lD, lA, lS])]
    exact h
  · intro k m hk
    have h := getElem?_mapIdxFrom fM src.MISC 0 k m hk
    rw [Nat.zero_add] at h
    subst hfM
    refine getElem?_append_some _ ?_
    rw [getElem?_append_add _ _ _ _ (by simp only [List.length_append, lD, lA, lS, lI])]
    exact h
  · have h := getElem?_append_add _ [easterEgg] _ 0 hlen
    rw [Nat.add_zero] at h
    rw [h]
    rfl
  · intro k e hk he
    by_contra hne
    rcases Nat.lt_or_gt_of_ne hne with hlt | hgt
    · rw [List.getElem?_append_left (by omega)] at hk
      exact (hbody e (List.getElem?_mem hk)).1 he
    · rw [List.getElem?_eq_none (by simp only [List.length_append, hlen, List.length_singleton]; omega)] at hk
      exact Option.noConfusion hk
  · intro e he hne
    rcases List.mem_append.mp he with he | he
    · exact (hbody e he).2
    · rw [List.mem_singleton] at he
      subst he
      exact absurd rfl hne

/-- Evaluation of C8 on `sampleSources`: six entries, the area at position 1 with index 0,
and the shard entry's index leads back to the shard record of the same name. -/
theorem getSearchTerms_layout_witness :
    (getSearchTerms sampleSources).length = 6 ∧
    (getSearchTerms sampleSources)[1]? =
      some { name := js "Galleon Minerva", type := .area, index := some 0,
             disambiguate := some false, keywords := [], hasActivated := none } ∧
    ∃ i, (some 0 : Option Nat) = some i ∧
      sourceRecordName sampleSources .shard i = some (js "Flame Orb") :=
  have h := getSearchTerms_layout sampleSources
  ⟨h.1, h.2.2.1 0 { name := fun _ => js "Galleon Minerva", disambiguate := none } rfl,
    h.2.2.2.2.2.2.2.2
      { name := js "Flame Orb", type := .shard, index := some 0,
        disambiguate := some false, keywords := [js "conjure"], hasActivated := none }
      (by decide) (by decide)⟩

/-! ## Easter-egg activation in a session -/

theorem getElem?_updateAt_self (f : SearchTerm → SearchTerm) (h : Heap) (ref : Nat) :
    (updateAt f h ref)[ref]? = (h[ref]?).map f := by
  induction h generalizing ref with
  | nil => simp [updateAt]
  | cons e h ih =>
    cases ref with
    | zero => simp [updateAt]
    | succ ref => simp [updateAt, ih]

theorem getElem?_updateAt_fixed (f : SearchTerm → SearchTerm) (h : Heap) (ref k : Nat)
    (e : SearchTerm) (hk : h[k]? = some e) (hf : f e = e) : (updateAt f h ref)[k]? = some e := by
  induction h generalizing ref k with
  | nil => simp at hk
  | cons x h ih =>
    cases ref with
    | zero =>
      cases k with
      | zero =>
        simp only [List.getElem?_cons_zero, Option.some.injEq] at hk
        simp [updateAt, hk, hf]
      | succ k => simpa [updateAt] using hk
    | succ ref =>
      cases k with
      | zero => simpa [updateAt] using hk
      | succ k =>
        simp only [List.getElem?_cons_succ] at hk
        simpa [updateAt] using ih ref k hk

theorem showResult_activated (e : SearchTerm) (he : e.hasActivated = some true) :
    showResult e = e := by
  unfold showResult
  cases e with
  | mk name type index disambiguate keywords hasActivated =>
    simp only at he
    subst he
    cases type <;> rfl

theorem step_keeps_activated (h : Heap) (c : Call) (ref : Nat) (e : SearchTerm)
    (hk : h[ref]? = some e) (he : e.hasActivated = some true) : (step h c)[ref]? = some e := by
  cases c with
  | getSearchTerms src => exact getElem?_append_some _ hk
  | showResult r => exact getElem?_updateAt_fixed _ _ _ _ _ hk (showResult_activated e he)
  | getSelectionFromURL ops src term =>
    unfold step getSelectionFromURL
    cases term with
    | none => exact hk
    | some term =>
      by_cases ht : term.isEmpty = true
      · simpa [ht] using hk
      · simp only [ht]
        exact getElem?_append_some _ hk

theorem run_keeps_activated (h : Heap) (calls : List Call) (ref : Nat) (e : SearchTerm)
    (hk : h[ref]? = some e) (he : e.hasActivated = some true) :
    (run h calls)[ref]? = some e := by
  induction calls generalizing h with
  | nil => exact hk
  | cons c calls ih => exact ih (step h c) (step_keeps_activated h c ref e hk he)

theorem getSearchTerms_last (src : Sources) :
    ∃ body, getSearchTerms src = body ++ [easterEgg] :=
  ⟨_, getSearchTerms_eq src⟩

/-- C9 (amended): the activation is kept on the selected entry object.  Once `showResult`
has resolved the selection of an easter-egg object, that object has `hasActivated` true
and `searchFilter` returns false on it for every query, also after any later calls of
`getSearchTerms`, `showResult` and `getSelectionFromURL`; and every later call of
`getSearchTerms` returns, in last position, a newly allocated easter-egg entry whose
`hasActivated` is false. -/
theorem activation_kept_on_object (h : Heap) (ref : Nat) (e : SearchTerm) (calls : List Call)
    (hobj : h[ref]? = some e) (hegg : e.type = .easteregg) :
    (∃ e', (run (callShowResult h ref) calls)[ref]? = some e' ∧ e'.type = .easteregg ∧
      e'.hasActivated = some true ∧ ∀ ops q, searchFilter ops e' q = false) ∧
    ∀ src, ∃ r, (callGetSearchTerms src (run (callShowResult h ref) calls)).2.getLast? = some r ∧
      r ≠ ref ∧
      (callGetSearchTerms src (run (callShowResult h ref) calls)).1[r]? = some easterEgg ∧
      easterEgg.hasActivated = some false := by
  have h1 : (callShowResult h ref)[ref]? = some (showResult e) := by
    unfold callShowResult
    rw [getElem?_updateAt_self, hobj]
    rfl
  have hact : (showResult e).hasActivated = some true := by
    unfold showResult
    rw [hegg]
  have htype : (showResult e).type = .easteregg := by
    unfold showResult
    rw [hegg]
  have hrun := run_keeps_activated (callShowResult h ref) calls ref (showResult e) h1 hact
  refine ⟨⟨showResult e, hrun, htype, hact, ?_⟩, ?_⟩
  · intro ops q
    unfold searchFilter
    simp [htype, hact, truthy]
  · intro src
    generalize run (callShowResult h ref) calls = h' at hrun
    have hlt : ref < h'.length := by
      by_contra hn
      rw [List.getElem?_eq_none (by omega)] at hrun
      exact Option.noConfusion hrun
    obtain ⟨body, hbody⟩ := getSearchTerms_last src
    refine ⟨h'.length + body.length, ?_, by omega, ?_, rfl⟩
    · unfold callGetSearchTerms
      simp only
      rw [List.getLast?_eq_getElem?, List.length_range', hbody,
        List.getElem?_range' _ _ (by simp)]
      simp
    · unfold callGetSearchTerms
      simp only
      rw [getElem?_append_add _ _ _ _ rfl, hbody]
      have h0 := getElem?_append_add body [easterEgg] _ 0 rfl
      rw [Nat.add_zero] at h0
      rw [h0]
      rfl

/-- Evaluation of C9 (amended) on the catalog of `sampleSources`, whose easter egg is the
object 5: after its selection, a further `getSearchTerms` and a second `showResult`, the
object is still activated and matches no query. -/
theorem activation_kept_on_object_witness :
    (callGetSearchTerms sampleSources []).1[5]? = some easterEgg ∧
    ∃ e', (run (callShowResult (callGetSearchTerms sampleSources []).1 5)
        [.getSearchTerms sampleSources, .showResult 5])[5]? = some e' ∧
      e'.type = .easteregg ∧ e'.hasActivated = some true ∧
      ∀ ops q, searchFilter ops e' q = false :=
  ⟨by decide,
    (activation_kept_on_object (callGetSearchTerms sampleSources []).1 5 easterEgg
      [.getSearchTerms sampleSources, .showResult 5] (by decide) rfl).1⟩

/-- C9 as stated fails: after the easter egg of a first catalog (object 5) has been
selected and activated, the catalog returned by a later `getSearchTerms` ends with an
easter-egg entry (object 11) whose `hasActivated` is false and which matches
`za warudo`; and `getSelectionFromURL` selects for `za warudo` an entry of the same
content before and after the activation. -/
theorem activation_not_kept_counterexample :
    (callGetSearchTerms sampleSources []).2.getLast? = some 5 ∧
    sessionActivated[5]? = some (showResult easterEgg) ∧
    (showResult easterEgg).hasActivated = some true ∧
    (callGetSearchTerms sampleSources sessionActivated).2.getLast? = some 11 ∧
    (callGetSearchTerms sampleSources sessionActivated).1[11]? = some easterEgg ∧
    easterEgg.hasActivated = some false ∧
    searchFilter latin1Ops easterEgg (js "za warudo") = true ∧
    (getSelectionFromURL latin1Ops sampleSources (some (js "za warudo")) []).2 = some 5 ∧
    (getSelectionFromURL latin1Ops sampleSources (some (js "za warudo")) []).1[5]? =
      some easterEgg ∧
    (getSelectionFromURL latin1Ops sampleSources (some (js "za warudo"))
      sessionActivated).2 = some 11 ∧
    (getSelectionFromURL latin1Ops sampleSources (some (js "za warudo"))
      sessionActivated).1[11]? = some easterEgg := by
  decide

/-! ## Query matcher: blank queries and the easter egg -/

/-- C4: a query that is omitted, empty or made of whitespace only matches no entry,
whatever the entry's type, flag and keywords. -/
theorem searchFilter_blank_query (ops : StringOps) (item : SearchTerm)
    (inputValue : Option JSString) (h : ∀ q, inputValue = some q → blank q = true) :
    searchFilterCall ops item inputValue = false := by
  have hb : blank (inputValue.getD []) = true := by
    cases inputValue with
    | none => rfl
    | some q => exact h q rfl
  unfold searchFilterCall searchFilter
  rw [trim_isEmpty, hb]
  rfl

/-- Evaluation of C4: the activated easter egg with the query omitted, and an entry
whose keyword is blank under a query of a space, a tab and a no-break space. -/
theorem searchFilter_blank_query_witness :
    searchFilterCall latin1Ops (showResult easterEgg) none = false ∧
    searchFilterCall latin1Ops (entry "Flame Orb" .shard ["fireball", " "])
      (some [0x20, 0x09, 0xA0]) = false :=
  ⟨searchFilter_blank_query latin1Ops (showResult easterEgg) none
      (fun _ hq => Option.noConfusion hq),
    searchFilter_blank_query latin1Ops (entry "Flame Orb" .shard ["fireball", " "])
      (some [0x20, 0x09, 0xA0]) (fun q hq => by
        have hq' : [0x20, 0x09, 0xA0] = q := Option.some.inj hq
        subst hq'
        decide)⟩

/-- C5: for an entry of type `'easteregg'` and a query that is not blank, `searchFilter`
returns true exactly when the `hasActivated` flag is not set, the query has at least
4 code units, and the lower-cased query equals the leading substring, as long as the
query, of the lower-cased name.  Keywords and the normalisation of the standard branch
play no part. -/
theorem searchFilter_easteregg (ops : StringOps) (item : SearchTerm) (q : JSString)
    (ht : item.type = .easteregg) (hq : blank q = false) :
    searchFilter ops item q = true ↔
      (truthy item.hasActivated = false ∧ 4 ≤ q.length ∧
        ops.toLowerCase q = (ops.toLowerCase item.name).take q.length) := by
  unfold searchFilter
  rw [trim_isEmpty, hq]
  cases hact : truthy item.hasActivated <;> simp [ht]

/-- Evaluation of C5 on `'Za Warudo'`: `za w` matches, `za` does not, an activated entry
does not match `za w`, and `zawarudo` (no whitespace removal) does not match. -/
theorem searchFilter_easteregg_witness :
    searchFilter latin1Ops easterEgg (js "za w") = true ∧
    searchFilter latin1Ops easterEgg (js "za") = false ∧
    searchFilter latin1Ops (showResult easterEgg) (js "za w") = false ∧
    searchFilter latin1Ops easterEgg (js "zawarudo") = false :=
  ⟨(searchFilter_easteregg latin1Ops easterEgg (js "za w") rfl (by decide)).mpr (by decide),
    by decide, by decide, by decide⟩

/-! ## Query matcher: the standard branch -/

/-- C1 (amended): for an entry that is not the easter egg and a query that is not blank,
if the normalised query (diacritics stripped, whitespace, hyphens, periods and
apostrophes removed, lower-cased) contains none of `8`, `&` and `/` and is a substring
of the normalised name, then `searchFilter` returns true. -/
theorem searchFilter_name_substring (ops : StringOps) (item : SearchTerm) (q : JSString)
    (ht : item.type ≠ .easteregg) (hq : blank q = false)
    (h8 : 0x38 ∉ normalize ops q) (hamp : 0x26 ∉ normalize ops q)
    (hslash : 0x2F ∉ normalize ops q)
    (hsub : IsSubstring (normalize ops q) (normalize ops item.name)) :
    searchFilter ops item q = true := by
  rw [searchFilter_standard ops item q ht hq, compareInput_of_plain ops q h8 hamp hslash]
  have h : IsSubstring (normalize ops q) (compareName ops item.name) :=
    isSubstring_replaceTrailing_recipes
      (isSubstring_replaceFirst _ _ (isSubstring_replaceFirst _ _ hsub h8) hamp) hslash
  simp [(includes_iff _ _).mpr h]

/-- Evaluation of C1 (amended): `32 bit` finds `32-bit Coin`, `dian cecht` finds
`Dian Cécht` and `od` finds `O.D.`. -/
theorem searchFilter_name_substring_witness :
    searchFilter latin1Ops (entry "32-bit Coin" .item []) (js "32 bit") = true ∧
    searchFilter latin1Ops (entry "Dian Cécht" .demon []) (js "dian cecht") = true ∧
    searchFilter latin1Ops (entry "O.D." .demon []) (js "od") = true :=
  ⟨searchFilter_name_substring latin1Ops (entry "32-bit Coin" .item []) (js "32 bit")
      (by decide) (by decide) (by decide) (by decide) (by decide)
      ((includes_iff _ _).mp (by decide)),
    searchFilter_name_substring latin1Ops (entry "Dian Cécht" .demon []) (js "dian cecht")
      (by decide) (by decide) (by decide) (by decide) (by decide)
      ((includes_iff _ _).mp (by decide)),
    searchFilter_name_substring latin1Ops (entry "O.D." .demon []) (js "od")
      (by decide) (by decide) (by decide) (by decide) (by decide)
      ((includes_iff _ _).mp (by decide))⟩

/-- C1 as stated fails: in each of three cases the normalised query is a substring of the
normalised name and `searchFilter` returns false.  `curry/` against `Curry/R` (the
trailing `/r` of the name becomes `recipes`), `8 ball` against `8-bit 8-ball` and
`b & c` against `A & B & C` (only the first `8` or `&` of the name is replaced). -/
theorem searchFilter_name_substring_counterexample :
    ((entry "Curry/R" .item []).type ≠ .easteregg ∧ blank (js "curry/") = false ∧
      IsSubstring (normalize latin1Ops (js "curry/")) (normalize latin1Ops (js "Curry/R")) ∧
      searchFilter latin1Ops (entry "Curry/R" .item []) (js "curry/") = false) ∧
    (IsSubstring (normalize latin1Ops (js "8 ball")) (normalize latin1Ops (js "8-bit 8-ball")) ∧
      searchFilter latin1Ops (entry "8-bit 8-ball" .item []) (js "8 ball") = false) ∧
    (IsSubstring (normalize latin1Ops (js "b & c")) (normalize latin1Ops (js "A & B & C")) ∧
      searchFilter latin1Ops (entry "A & B & C" .item []) (js "b & c") = false) :=
  ⟨⟨by decide, by decide, (includes_iff _ _).mp (by decide), by decide⟩,
    ⟨(includes_iff _ _).mp (by decide), by decide⟩,
    ⟨(includes_iff _ _).mp (by decide), by decide⟩⟩

/-- C2 (amended): for an entry that is not the easter egg and a query that is not blank,
if the normalised query (diacritics stripped, whitespace, hyphens, periods and
apostrophes removed, lower-cased) contains neither `8` nor `&` and, with a trailing
`/r` replaced by `recipe`, is a substring of one of the entry's keywords, each trimmed,
whitespace-removed and lower-cased, then `searchFilter` returns true, whatever the
name is. -/
theorem searchFilter_keyword (ops : StringOps) (item : SearchTerm) (q : JSString)
    (ht : item.type ≠ .easteregg) (hq : blank q = false)
    (h8 : 0x38 ∉ normalize ops q) (hamp : 0x26 ∉ normalize ops q)
    (hk : ∃ k ∈ item.keywords,
      IsSubstring (replaceTrailingSlashR (js "recipe") (normalize ops q))
        (normalizeKeyword ops k)) :
    searchFilter ops item q = true := by
  have hm : matchKeywords ops item q = true := by
    rw [matchKeywords_iff, compareInput_of_no_symbol ops q h8 hamp]
    exact hk
  rw [searchFilter_standard ops item q ht hq, hm]
  simp

/-- Evaluation of C2 (amended): `fireball` finds `Flame Orb` through its keyword, and
`fire-ball` does as well, the hyphen of the query being removed. -/
theorem searchFilter_keyword_witness :
    includes (compareName latin1Ops (js "Flame Orb")) (compareInput latin1Ops (js "fireball")) =
      false ∧
    searchFilter latin1Ops (entry "Flame Orb" .shard ["fireball"]) (js "fireball") = true ∧
    searchFilter latin1Ops (entry "Flame Orb" .shard ["fireball"]) (js "fire-ball") = true :=
  ⟨by decide,
    searchFilter_keyword latin1Ops (entry "Flame Orb" .shard ["fireball"]) (js "fireball")
      (by decide) (by decide) (by decide) (by decide)
      ⟨js "fireball", by decide, (includes_iff _ _).mp (by decide)⟩,
    searchFilter_keyword latin1Ops (entry "Flame Orb" .shard ["fireball"]) (js "fire-ball")
      (by decide) (by decide) (by decide) (by decide)
      ⟨js "fireball", by decide, (includes_iff _ _).mp (by decide)⟩⟩

/-- C2 as stated fails: for the keyword and query `hand-axe`, the query with only its
whitespace removed and lower-cased is a substring of the normalised keyword, but the
hyphen is removed from the query and kept in the keyword, and `searchFilter` returns
false. -/
theorem searchFilter_keyword_counterexample :
    (entry "Flame Orb" .shard ["hand-axe"]).type ≠ .easteregg ∧
    blank (js "hand-axe") = false ∧
    IsSubstring (latin1Ops.toLowerCase (removeAll isWhiteSpace (js "hand-axe")))
      (normalizeKeyword latin1Ops (js "hand-axe")) ∧
    compareInput latin1Ops (js "hand-axe") = js "handaxe" ∧
    normalizeKeyword latin1Ops (js "hand-axe") = js "hand-axe" ∧
    searchFilter latin1Ops (entry "Flame Orb" .shard ["hand-axe"]) (js "hand-axe") = false :=
  ⟨by decide, by decide, (includes_iff _ _).mp (by decide), by decide, by decide, by decide⟩

/-- C7: an entry that is not the easter egg and whose name is not blank matches its own
name; and when the normalised name ends in `/r`, the name side ends in `recipes` and
the query side in `recipe` after the same stem, the latter a substring of the former. -/
theorem searchFilter_own_name (ops : StringOps) (item : SearchTerm)
    (ht : item.type ≠ .easteregg) (hn : blank item.name = false) :
    searchFilter ops item item.name = true ∧
    ∀ stem, normalize ops item.name = stem ++ js "/r" →
      compareName ops item.name =
        replaceFirst 0x26 (js "and") (replaceFirst 0x38 (js "eight") stem) ++ js "recipes" ∧
      compareInput ops item.name =
        replaceFirst 0x26 (js "and") (replaceFirst 0x38 (js "eight") stem) ++ js "recipe" ∧
      IsSubstring (compareInput ops item.name) (compareName ops item.name) := by
  have hsub : IsSubstring (compareInput ops item.name) (compareName ops item.name) := by
    unfold compareInput compareName
    generalize replaceFirst 0x26 (js "and")
      (replaceFirst 0x38 (js "eight") (normalize ops item.name)) = x
    by_cases hsuf : ∃ stem, x = stem ++ slashR
    · obtain ⟨stem, rfl⟩ := hsuf
      rw [replaceTrailingSlashR_append, replaceTrailingSlashR_append]
      exact ⟨[], js "s", by
        have h : js "recipes" = js "recipe" ++ js "s" := by decide
        rw [h]; simp⟩
    · rw [replaceTrailingSlashR_of_not_suffix _ _ hsuf, replaceTrailingSlashR_of_not_suffix _ _ hsuf]
      exact isSubstring_refl x
  refine ⟨?_, ?_⟩
  · rw [searchFilter_standard ops item item.name ht hn, (includes_iff _ _).mpr hsub]
    rfl
  · intro stem hstem
    have hjs : js "/r" = slashR := by decide
    have hx : replaceFirst 0x26 (js "and")
        (replaceFirst 0x38 (js "eight") (normalize ops item.name)) =
        replaceFirst 0x26 (js "and") (replaceFirst 0x38 (js "eight") stem) ++ slashR := by
      rw [hstem, hjs, replaceFirst_append_slashR _ _ _ (by decide),
        replaceFirst_append_slashR _ _ _ (by decide)]
    refine ⟨?_, ?_, hsub⟩
    · unfold compareName
      rw [hx, replaceTrailingSlashR_append]
    · unfold compareInput
      rw [hx, replaceTrailingSlashR_append]

/-- Evaluation of C7 on the name `Something/R`: the entry matches its name, the name side
is `somethingrecipes` and the query side `somethingrecipe`. -/
theorem searchFilter_own_name_witness :
    searchFilter latin1Ops (entry "Something/R" .item []) (js "Something/R") = true ∧
    compareName latin1Ops (js "Something/R") = js "somethingrecipes" ∧
    compareInput latin1Ops (js "Something/R") = js "somethingrecipe" :=
  have h := searchFilter_own_name latin1Ops (entry "Something/R" .item [])
    (by decide) (by decide)
  have h2 := h.2 (js "something") (by decide)
  ⟨h.1, h2.1.trans (by decide), h2.2.1.trans (by decide)⟩

/-- C10: for an entry that is not the easter egg, a query that is not blank but consists
only of whitespace, hyphens, periods and apostrophes matches, whatever the entry's name
and keywords: the query normalises to the empty string.  The library functions are
assumed to behave as documented on such input (`LibraryLaws`). -/
theorem searchFilter_punctuation_only (ops : StringOps) (hops : LibraryLaws ops)
    (item : SearchTerm) (q : JSString)
    (ht : item.type ≠ .easteregg) (hq : blank q = false) (hp : q.all isSeparator = true) :
    compareInput ops q = [] ∧ searchFilter ops item q = true := by
  have hd : ops.deburr q = q :=
    hops.deburr_plain q (fun c hc =>
      isSeparator_not_deburrTarget c (List.all_eq_true.mp hp c hc))
  have hc : compareInput ops q = [] := by
    unfold compareInput normalize
    rw [hd, removeAll_eq_nil isSeparator q hp, hops.toLowerCase_empty]
    rfl
  refine ⟨hc, ?_⟩
  rw [searchFilter_standard ops item q ht hq, hc, includes_nil]
  rfl

/-- Evaluation of C10: the queries `-`, `.` and `' -` match an entry named `Flame Orb`. -/
theorem searchFilter_punctuation_only_witness :
    searchFilter latin1Ops (entry "Flame Orb" .shard ["fireball"]) (js "-") = true ∧
    searchFilter latin1Ops (entry "Flame Orb" .shard ["fireball"]) (js ".") = true ∧
    searchFilter latin1Ops (entry "Flame Orb" .shard ["fireball"]) [0x27, 0x20, 0x2D] = true :=
  ⟨(searchFilter_punctuation_only latin1Ops latin1Ops_laws _ (js "-")
      (by decide) (by decide) (by decide)).2,
    (searchFilter_punctuation_only latin1Ops latin1Ops_laws _ (js ".")
      (by decide) (by decide) (by decide)).2,
    (searchFilter_punctuation_only latin1Ops latin1Ops_laws _ [0x27, 0x20, 0x2D]
      (by decide) (by decide) (by decide)).2⟩

/-! ## Where the code departs from its stated intent -/

/-- C3 fails on the code: the entry that `getSearchTerms` builds for a demon with number
8 has the keyword `8`; the query `8` becomes `eight` before it is compared with the
keyword, and `searchFilter` returns false on that entry (and on every entry of the
catalog). -/
theorem searchFilter_demon_number_eight :
    (getSearchTerms sampleSources).head? =
      some { name := js "Seama", type := .demon, index := some 0, disambiguate := some false,
             keywords := [numberToString 8], hasActivated := none } ∧
    numberToString 8 = js "8" ∧
    compareInput latin1Ops (numberToString 8) = js "eight" ∧
    (getSearchTerms sampleSources).map
        (fun e => searchFilter latin1Ops e (numberToString 8)) =
      [false, false, false, false, false, false] := by
  decide

/-- C6 fails on the code: the normalised name of `Fish & Chips & Peas` and the normalised
query `fish and chips and peas` are equal once every `&` is written `and`, but only the
first `&` of the name is replaced and `searchFilter` returns false; likewise for the
name `8-bit 8-ball` and the query `eight bit eight ball`. -/
theorem searchFilter_second_ampersand :
    (spellOut (normalize latin1Ops (js "Fish & Chips & Peas")) =
        spellOut (normalize latin1Ops (js "fish and chips and peas")) ∧
      compareName latin1Ops (js "Fish & Chips & Peas") = js "fishandchips&peas" ∧
      compareInput latin1Ops (js "fish and chips and peas") = js "fishandchipsandpeas" ∧
      searchFilter latin1Ops (entry "Fish & Chips & Peas" .item [])
        (js "fish and chips and peas") = false) ∧
    (spellOut (normalize latin1Ops (js "8-bit 8-ball")) =
        spellOut (normalize latin1Ops (js "eight bit eight ball")) ∧
      compareName latin1Ops (js "8-bit 8-ball") = js "eightbit8ball" ∧
      compareInput latin1Ops (js "eight bit eight ball") = js "eightbiteightball" ∧
      searchFilter latin1Ops (entry "8-bit 8-ball" .item [])
        (js "eight bit eight ball") = false) := by
  decide

end Result
